import Mathlib

/-!
# AutoStepper — step sequencing and notation encoding, shallowly embedded

This file embeds the core of the AutoStepper repository in Lean 4 and proves
properties of the embedded code.

* `src/autostepper/stepgen/generator.py` (`StepGenerator`): beat selection,
  step/jump creation, hold promotion, chart assembly.
* `src/autostepper/formats/stepmania.py` (`SMExporter._format_measure`):
  the legacy `.sm` measure quantizer/formatter.
* `src/autostepper/formats/stepmania_ssc.py` (`SSCExporter`): the modern
  `.ssc` exporter (content generation, note formatting, measure formatting).

Modelling conventions:

* Python floats are modelled as rationals (`ℚ`); all arithmetic in the
  modelled code paths is exact.
* Python's module-level random generator (seeded once per `StepGenerator`
  with `random.seed(42)`) is modelled as a deterministic stream of draws
  `Rand := ℕ → ℚ`, each draw standing for one `random.random()` result in
  `[0,1)`; `random.choice`, `random.sample` and `random.uniform` are
  modelled as deterministic functions of such draws.  No claim proved here
  depends on the distribution of the draws, only on the stream being a
  deterministic function of the seed.
* Fallible operations (Python `raise`) are modelled with `Except PyError`.
  The only failure points in the embedded code are the two division-by-zero
  sites (`_add_holds`: `60.0 / tempo`; the dead `end_beat` expression in
  `SSCExporter._format_measure`) and the empty-chart-list check in
  `SSCExporter._generate_ssc_content`.
-/

namespace AutoStepper

/-- A deterministic stream of pseudo-random draws, each in `[0,1)`.  Python's
`random` module seeded with a fixed constant is one such stream. -/
abbrev Rand : Type := ℕ → ℚ

/-- The next draw of the stream (the value `random.random()` returns). -/
def Rand.head (g : Rand) : ℚ := g 0

/-- The stream after consuming one draw. -/
def Rand.tail (g : Rand) : Rand := fun n => g (n + 1)

/-- The four panel directions (`StepGenerator.DIRECTIONS`). -/
inductive Direction
  | left
  | down
  | up
  | right
deriving DecidableEq, Repr

/-- The list `StepGenerator.DIRECTIONS = ['Left', 'Down', 'Up', 'Right']`. -/
def DIRECTIONS : List Direction := [.left, .down, .up, .right]

/-- The map `StepGenerator.DIRECTION_CODES`: the 4-digit column pattern of each
direction, one digit per column. -/
def directionCode : Direction → List ℕ
  | .left => [1, 0, 0, 0]
  | .down => [0, 1, 0, 0]
  | .up => [0, 0, 1, 0]
  | .right => [0, 0, 0, 1]

/-- One entry of a difficulty configuration
(`StepGenerator.DIFFICULTY_CONFIGS[name]`). -/
structure Config where
  step_density : ℚ
  jumps_enabled : Bool
  holds_enabled : Bool
  complexity : ℚ
  min_gap : ℚ
deriving DecidableEq, Repr

/-- The entry `DIFFICULTY_CONFIGS['easy']`. -/
def easyConfig : Config :=
  { step_density := 2/5, jumps_enabled := false, holds_enabled := false
    complexity := 1, min_gap := 1/2 }

/-- The entry `DIFFICULTY_CONFIGS['medium']`. -/
def mediumConfig : Config :=
  { step_density := 3/5, jumps_enabled := false, holds_enabled := true
    complexity := 3/2, min_gap := 1/4 }

/-- The entry `DIFFICULTY_CONFIGS['hard']`. -/
def hardConfig : Config :=
  { step_density := 4/5, jumps_enabled := true, holds_enabled := true
    complexity := 2, min_gap := 1/8 }

/-- The entry `DIFFICULTY_CONFIGS['expert']`. -/
def expertConfig : Config :=
  { step_density := 19/20, jumps_enabled := true, holds_enabled := true
    complexity := 3, min_gap := 1/16 }

/-- The table `StepGenerator.DIFFICULTY_CONFIGS` as an association list. -/
def DIFFICULTY_CONFIGS : List (String × Config) :=
  [("easy", easyConfig), ("medium", mediumConfig),
   ("hard", hardConfig), ("expert", expertConfig)]

/-- Embeds `StepGenerator.__init__`: `self.config =
self.DIFFICULTY_CONFIGS.get(difficulty, self.DIFFICULTY_CONFIGS['medium'])`. -/
def lookupConfig (difficulty : String) : Config :=
  (DIFFICULTY_CONFIGS.lookup difficulty).getD mediumConfig

/-- Embeds `StepGenerator._calculate_difficulty_rating`:
`ratings.get(self.difficulty, 4)`. -/
def difficultyRating (difficulty : String) : ℕ :=
  (([("easy", 2), ("medium", 4), ("hard", 6), ("expert", 8)] :
      List (String × ℕ)).lookup difficulty).getD 4

/-- The `'type'` field of the step dictionaries built by the generator. -/
inductive StepKind
  | tap
  | jump
  | hold
deriving DecidableEq, Repr

/-- One step dictionary as built by `StepGenerator` (`'time'`, `'type'`,
`'directions'`, `'pattern'`, optional `'hold_end_time'`).  The pattern is a
list of 4 digits. -/
structure Step where
  time : ℚ
  kind : StepKind
  directions : List Direction
  pattern : List ℕ
  hold_end_time : Option ℚ := none
deriving DecidableEq, Repr

/-- A throw-away step used as the default of `List.getD` in positions proved
to be in bounds. -/
def dummyStep : Step :=
  { time := 0, kind := .tap, directions := [], pattern := [], hold_end_time := none }

/-- Errors raised by the embedded Python code.  `zeroDivision` is Python's
`ZeroDivisionError`; `emptyChartSet` is the
`ValueError("At least one chart is required")` the spec calls `EmptyChartSet`. -/
inductive PyError
  | zeroDivision
  | emptyChartSet
deriving DecidableEq, Repr

/-! ## `StepGenerator._select_beats` -/

/-- The `for beat_time in beat_times` loop of `_select_beats`, threading the
accumulated `selected` list, `last_selected_time` and the random stream. -/
def selectBeatsLoop (density min_gap : ℚ) :
    List ℚ → List ℚ → ℚ → Rand → List ℚ × Rand
  | [], selected, _, g => (selected, g)
  | b :: bs, selected, last, g =>
    if selected.isEmpty then
      selectBeatsLoop density min_gap bs (selected ++ [b]) b g
    else if b - last < min_gap then
      selectBeatsLoop density min_gap bs selected last g
    else if g.head < density then
      selectBeatsLoop density min_gap bs (selected ++ [b]) b g.tail
    else
      selectBeatsLoop density min_gap bs selected last g.tail

/-- Embeds `StepGenerator._select_beats` (the initial `last_selected_time` is
`-999`). -/
def selectBeats (density min_gap : ℚ) (beats : List ℚ) (g : Rand) :
    List ℚ × Rand :=
  if beats.isEmpty then ([], g)
  else selectBeatsLoop density min_gap beats [] (-999) g

/-! ## Step creation -/

/-- Models `random.choice(l)` from one draw `u ∈ [0,1)`: the element of
index `⌊u * len(l)⌋`. -/
def randChoice (l : List Direction) (u : ℚ) : Direction :=
  l.getD (Int.toNat ⌊u * l.length⌋) .left

/-- The direction drawn by `_create_single_step` from one `random.choice`
draw: last-direction aware, with the adjacency rule on the `easy` tier. -/
def chooseDirection (difficulty : String) (lastDir : Option Direction)
    (u : ℚ) : Direction :=
  match lastDir with
  | none => randChoice DIRECTIONS u
  | some last =>
    if difficulty = "easy" then
      if last = .left then randChoice [.down, .up] u
      else if last = .right then randChoice [.down, .up] u
      else randChoice [.left, .right] u
    else
      randChoice (DIRECTIONS.filter (fun d => d ≠ last)) u

/-- Embeds `StepGenerator._create_single_step`: every branch consumes exactly one
`random.choice` draw; `self.last_step_direction` is updated to the chosen
direction. -/
def createSingleStep (difficulty : String) (lastDir : Option Direction)
    (time : ℚ) (g : Rand) : Step × Option Direction × Rand :=
  let dir := chooseDirection difficulty lastDir g.head
  ({ time := time, kind := .tap, directions := [dir],
     pattern := directionCode dir, hold_end_time := none }, some dir, g.tail)

/-- Embeds `StepGenerator._create_jump_step`: `random.sample(DIRECTIONS, 2)` is
modelled from two draws (a uniform choice, then a choice among the
remaining three); patterns are combined with the digit-wise `|` of `'0000'`
and both codes.  Does not touch `self.last_step_direction`. -/
def createJumpStep (time : ℚ) (g : Rand) : Step × Rand :=
  let d1 := randChoice DIRECTIONS g.head
  let d2 := randChoice (DIRECTIONS.filter (fun d => d ≠ d1)) g.tail.head
  let pattern :=
    List.zipWith Nat.lor
      (List.zipWith Nat.lor [0, 0, 0, 0] (directionCode d1)) (directionCode d2)
  ({ time := time, kind := .jump, directions := [d1, d2],
     pattern := pattern, hold_end_time := none }, g.tail.tail)

/-- Embeds `StepGenerator._generate_step_at_time`.  The jump draw is consumed only
when `jumps_enabled` (Python's `and` short-circuits); the `step_index > 0`
test comes after the draw. -/
def generateStepAtTime (cfg : Config) (difficulty : String)
    (lastDir : Option Direction) (time : ℚ) (idx : ℕ) (g : Rand) :
    Step × Option Direction × Rand :=
  if cfg.jumps_enabled then
    let u := g.head
    let g' := g.tail
    if u < 3/20 ∧ idx > 0 then
      ((createJumpStep time g').1, lastDir, (createJumpStep time g').2)
    else createSingleStep difficulty lastDir time g'
  else createSingleStep difficulty lastDir time g

/-- The `for i, beat_time in enumerate(selected_beats)` loop of
`_generate_steps` (`_generate_step_at_time` always returns a dictionary,
which is truthy, so every selected beat contributes one step). -/
def generateStepsLoop (cfg : Config) (difficulty : String) :
    List ℚ → ℕ → Option Direction → Rand → List Step × Option Direction × Rand
  | [], _, lastDir, g => ([], lastDir, g)
  | t :: ts, i, lastDir, g =>
    let r1 := generateStepAtTime cfg difficulty lastDir t i g
    let r2 := generateStepsLoop cfg difficulty ts (i + 1) r1.2.1 r1.2.2
    (r1.1 :: r2.1, r2.2.1, r2.2.2)

/-! ## `StepGenerator._add_holds` -/

/-- The body of the `for i, step in enumerate(steps)` loop of `_add_holds`.
The 10%-draw is consumed whenever the step is a tap (short-circuit of the
`and` chain); `random.uniform(a, b)` is `a + (b - a) * random()`.  The next
step's time is read from the original list; when the promotion guard holds,
`i + 1` is in bounds, so the `getD` default (Python's `float('inf')` branch)
is never used there. -/
def addHoldsBody (orig : List Step) (minHold maxHold : ℚ) (s : Step) (i : ℕ)
    (g : Rand) : Step × Rand :=
  if s.kind = .tap then
    let u := g.head
    let g' := g.tail
    if u < 1/10 ∧ i < orig.length - 2 then
      let v := g'.head
      let g'' := g'.tail
      let duration := minHold + (maxHold - minHold) * v
      let endTime := s.time + duration
      let nextTime := (orig.getD (i + 1) s).time
      if endTime < nextTime - 1/2 then
        ({ s with kind := .hold, hold_end_time := some endTime }, g'')
      else (s, g'')
    else (s, g')
  else (s, g)

/-- The full loop of `_add_holds`, with `i` the absolute index in the
original step list. -/
def addHoldsLoop (orig : List Step) (minHold maxHold : ℚ) :
    List Step → ℕ → Rand → List Step × Rand
  | [], _, g => ([], g)
  | s :: rest, i, g =>
    let r1 := addHoldsBody orig minHold maxHold s i g
    let r2 := addHoldsLoop orig minHold maxHold rest (i + 1) r1.2
    (r1.1 :: r2.1, r2.2)

/-- Embeds `StepGenerator._add_holds`.  After the empty-list early return, Python
evaluates `beat_length = 60.0 / tempo`, which raises `ZeroDivisionError`
when `tempo` is zero (the analyzer hands the generator a plain Python
float). -/
def addHolds (steps : List Step) (tempo : ℚ) (g : Rand) :
    Except PyError (List Step × Rand) :=
  if steps.isEmpty then .ok (steps, g)
  else if tempo = 0 then .error .zeroDivision
  else
    let beatLength := 60 / tempo
    .ok (addHoldsLoop steps (beatLength * 2) (beatLength * 4) steps 0 g)

/-! ## `StepGenerator._generate_steps` -/

/-- The comparison key of the final `steps.sort(key=lambda s: s['time'])`. -/
def stepTimeLE (a b : Step) : Bool := decide (a.time ≤ b.time)

/-- Embeds `StepGenerator._generate_steps`: empty-input early return, beat
selection, step creation, optional hold promotion, final stable sort by
time. -/
def generateSteps (cfg : Config) (difficulty : String) (beats : List ℚ)
    (tempo : ℚ) (g : Rand) : Except PyError (List Step) :=
  if beats.isEmpty then .ok []
  else
    let sel := selectBeats cfg.step_density cfg.min_gap beats g
    let gen := generateStepsLoop cfg difficulty sel.1 0 none sel.2
    (if cfg.holds_enabled then addHolds gen.1 tempo gen.2.2
     else .ok (gen.1, gen.2.2)).map fun p => p.1.mergeSort stepTimeLE

/-! ## `StepGenerator.generate_chart` -/

/-- The `'metadata'` block of a chart dictionary. -/
structure Metadata where
  title : String
  artist : String
  album : String
  genre : String
  filename : String
  credit : String
deriving DecidableEq, Repr

/-- The `'timing'` block of a chart dictionary. -/
structure ChartTiming where
  bpm : ℚ
  offset : ℚ
  duration : ℚ
deriving DecidableEq, Repr

/-- The `'difficulty'` block of a chart dictionary. -/
structure ChartDifficulty where
  type : String
  description : String
  feet : ℕ
  radar : String
deriving DecidableEq, Repr

/-- The `'analysis_info'` block of a chart dictionary. -/
structure AnalysisInfo where
  beat_count : ℕ
  step_count : ℕ
  confidence : ℚ
  step_density : ℚ
deriving DecidableEq, Repr

/-- A chart dictionary as assembled by `StepGenerator.generate_chart`. -/
structure Chart where
  metadata : Metadata
  timing : ChartTiming
  difficulty : ChartDifficulty
  notes : List Step
  analysis_info : AnalysisInfo
deriving DecidableEq, Repr

/-- The fields of the `audio_data` dictionary read by `generate_chart`
(beat times, tempo, duration, optional tag metadata, filename,
confidence). -/
structure AudioData where
  beat_times : List ℚ
  tempo : ℚ
  duration : ℚ
  title : Option String := none
  artist : Option String := none
  album : Option String := none
  genre : Option String := none
  filename : String := ""
  confidence : Option ℚ := none

/-- Embeds `StepGenerator.generate_chart` for one difficulty tier (the
`StepGenerator(difficulty)` construction resolves the configuration through
`lookupConfig`). -/
def generateChart (difficulty : String) (audio : AudioData)
    (titleOverride artistOverride : Option String) (g : Rand) :
    Except PyError Chart := do
  let cfg := lookupConfig difficulty
  let steps ← generateSteps cfg difficulty audio.beat_times audio.tempo g
  .ok
    { metadata :=
        { title := titleOverride.getD (audio.title.getD "Unknown Title")
          artist := artistOverride.getD (audio.artist.getD "Unknown Artist")
          album := audio.album.getD ""
          genre := audio.genre.getD ""
          filename := audio.filename
          credit := "AutoStepper MVP" }
      timing :=
        { bpm := audio.tempo, offset := 0, duration := audio.duration }
      difficulty :=
        { type := "dance-single", description := difficulty
          feet := difficultyRating difficulty, radar := "0,0,0,0,0" }
      notes := steps
      analysis_info :=
        { beat_count := audio.beat_times.length
          step_count := steps.length
          confidence := audio.confidence.getD (4/5)
          step_density :=
            if audio.beat_times.length > 0 then
              (steps.length : ℚ) / (audio.beat_times.length : ℚ)
            else 0 } }

/-! ## Shared quantization pieces -/

/-- The candidate subdivision set of both exporters
(`sm_subdivisions = [4, 8, 12, 16, 24, 32, 48, 64, 96, 192]`). -/
def smSubdivisions : List ℕ := [4, 8, 12, 16, 24, 32, 48, 64, 96, 192]

/-- Python's `str.replace` on a digit pattern (`pattern.replace('1', '2')`
and `pattern.replace('1', '3')`). -/
def replaceDigit (old new : ℕ) (p : List ℕ) : List ℕ :=
  p.map fun d => if d = old then new else d

/-- Python's built-in `round` on a rational: round half to even. -/
def pyRound (x : ℚ) : ℤ :=
  let f := ⌊x⌋
  let r := x - f
  if r < 1/2 then f
  else if 1/2 < r then f + 1
  else if f % 2 = 0 then f else f + 1

/-- A line rendered as four characters (`'0000'`-style). -/
def lineString (l : List ℕ) : String :=
  String.join (l.map (fun d => toString d))

/-- Joins grid lines with newlines (`'\n'.join(lines)`). -/
def joinLines (lines : List (List ℕ)) : String :=
  String.intercalate "\n" (lines.map lineString)

/-! ## `SMExporter._format_measure` (legacy `.sm` quantizer) -/

/-- The subdivision choice of `SMExporter._format_measure`:
`required = max(4, int(math.ceil(max_beat_precision + 1)))`, then the
smallest candidate `≥ required`.  On reachable inputs every
`beat_in_measure` is in `[0, 4)`, so `required ≤ 5` and the `find?` always
succeeds (Python's `min` over an empty generator would raise instead). -/
def legacySubdivision (maxBeatPrecision : ℚ) : ℕ :=
  let required : ℤ := max 4 ⌈maxBeatPrecision + 1⌉
  (smSubdivisions.find? (fun (s : ℕ) => required ≤ (s : ℤ))).getD 192

/-- One iteration of the note-placement loop of
`SMExporter._format_measure`: `line_index = int((beat_in_measure / 4) *
subdivision)` (truncation; on reachable inputs the value is nonnegative, so
this is the floor), clamped with `min(line_index, subdivision - 1)`.  Taps
and jumps overwrite the line; a hold overwrites its start line with the
`1 → 2` pattern and the line `min(line_index + 4, subdivision - 1)` with the
`1 → 3` pattern. -/
def legacyPlaceNote (subdivision : ℕ) (lines : List (List ℕ))
    (bn : ℚ × Step) : List (List ℕ) :=
  let lineIndex := min (Int.toNat ⌊bn.1 / 4 * subdivision⌋) (subdivision - 1)
  match bn.2.kind with
  | .tap => lines.set lineIndex bn.2.pattern
  | .jump => lines.set lineIndex bn.2.pattern
  | .hold =>
    let l1 := lines.set lineIndex (replaceDigit 1 2 bn.2.pattern)
    let endLine := min (lineIndex + 4) (subdivision - 1)
    l1.set endLine (replaceDigit 1 3 bn.2.pattern)

/-- The grid built by `SMExporter._format_measure` (the method returns the
newline-join of these lines).  `max_beat_precision` is
`max(note[0] for note in measure_notes) if measure_notes else 0`. -/
def legacyFormatMeasureLines (measureNotes : List (ℚ × Step)) :
    List (List ℕ) :=
  if measureNotes.isEmpty then List.replicate 4 [0, 0, 0, 0]
  else
    let maxBeatPrecision := ((measureNotes.map Prod.fst).max?).getD 0
    let subdivision := legacySubdivision maxBeatPrecision
    measureNotes.foldl (legacyPlaceNote subdivision)
      (List.replicate subdivision [0, 0, 0, 0])

/-- Embeds `SMExporter._format_measure` (string form). -/
def legacyFormatMeasure (measureNotes : List (ℚ × Step)) : String :=
  joinLines (legacyFormatMeasureLines measureNotes)

/-! ## `SSCExporter._format_measure` (modern `.ssc` quantizer) -/

/-- The inner `for sub in sm_subdivisions` search of
`SSCExporter._format_measure`: the first candidate `s` for which
`fraction * s` is within `0.001` of an integer (`break` after the first
hit), if any. -/
def sscNoteSubdivision (fraction : ℚ) : Option ℕ :=
  smSubdivisions.find?
    (fun (s : ℕ) => |fraction * s - pyRound (fraction * s)| < 1/1000)

/-- The `required_subdivision` accumulation of `SSCExporter._format_measure`:
start at `4`; for each note, if its first fitting candidate is larger than
the accumulator, take it; a note with no fitting candidate leaves the
accumulator unchanged. -/
def sscRequiredSubdivision (measureNotes : List (ℚ × Step)) : ℕ :=
  measureNotes.foldl
    (fun required bn =>
      match sscNoteSubdivision (bn.1 / 4) with
      | some s => if s > required then s else required
      | none => required) 4

/-- Element-wise digit merge of two lines
(`str(max(int(a), int(b)))` per character pair). -/
def mergeLine (a b : List ℕ) : List ℕ := List.zipWith max a b

/-- One iteration of the note-placement loop of
`SSCExporter._format_measure`: `line_index = int(round(fraction *
subdivision))` clamped with `min(line_index, subdivision - 1)`, merging into
the existing line.  A hold merges its `1 → 2` pattern at the start line; if
the dictionary has a `'hold_end_time'` key, Python then evaluates the unused
`end_beat` expression, which divides by `note['time']` and by
`beat_in_measure` and hence raises `ZeroDivisionError` whenever either is
zero; otherwise the `1 → 3` pattern is merged at
`min(line_index + subdivision // 4, subdivision - 1)`.  The clamp keeps
`lineIndex < subdivision` on reachable inputs, so the `getD` defaults are
never used. -/
def sscPlaceNote (subdivision : ℕ) (lines : List (List ℕ))
    (bn : ℚ × Step) : Except PyError (List (List ℕ)) :=
  let lineIndex :=
    min (Int.toNat (pyRound (bn.1 / 4 * subdivision))) (subdivision - 1)
  match bn.2.kind with
  | .tap =>
    .ok (lines.set lineIndex
      (mergeLine (lines.getD lineIndex [0, 0, 0, 0]) bn.2.pattern))
  | .jump =>
    .ok (lines.set lineIndex
      (mergeLine (lines.getD lineIndex [0, 0, 0, 0]) bn.2.pattern))
  | .hold =>
    let l1 := lines.set lineIndex
      (mergeLine (lines.getD lineIndex [0, 0, 0, 0])
        (replaceDigit 1 2 bn.2.pattern))
    match bn.2.hold_end_time with
    | some _ =>
      if bn.2.time = 0 ∨ bn.1 = 0 then .error .zeroDivision
      else
        let endLine := min (lineIndex + subdivision / 4) (subdivision - 1)
        .ok (l1.set endLine
          (mergeLine (l1.getD endLine [0, 0, 0, 0])
            (replaceDigit 1 3 bn.2.pattern)))
    | none => .ok l1

/-- The grid built by `SSCExporter._format_measure`. -/
def sscFormatMeasureLines (measureNotes : List (ℚ × Step)) :
    Except PyError (List (List ℕ)) :=
  if measureNotes.isEmpty then .ok (List.replicate 4 [0, 0, 0, 0])
  else
    let subdivision := sscRequiredSubdivision measureNotes
    measureNotes.foldlM (sscPlaceNote subdivision)
      (List.replicate subdivision [0, 0, 0, 0])

/-- Embeds `SSCExporter._format_measure` (string form). -/
def sscFormatMeasure (measureNotes : List (ℚ × Step)) :
    Except PyError String :=
  (sscFormatMeasureLines measureNotes).map joinLines

/-! ## `SSCExporter._format_notes` -/

/-- Python's `x % 4` on a float (nonnegative remainder). -/
def qmod4 (x : ℚ) : ℚ := x - 4 * ⌊x / 4⌋

/-- The `beat_positions` list: each note paired with `(note['time'] / 60.0) * bpm`. -/
def beatPositions (notes : List Step) (bpm : ℚ) : List (ℚ × Step) :=
  notes.map fun n => (n.time / 60 * bpm, n)

/-- Embeds `SSCExporter._format_notes`: empty note lists render as one all-zero
measure; otherwise every measure index from `0` to
`int(max_beat // 4)`, inclusive, is rendered (empty measures included) and
the measures are joined with `',\n'`.  Python iterates
`range(total_measures)`, which is empty when `total_measures ≤ 0`; the
`toNat` reproduces that. -/
def sscFormatNotes (notes : List Step) (bpm : ℚ) : Except PyError String :=
  if notes.isEmpty then .ok "0000\n0000\n0000\n0000"
  else
    let bps := beatPositions notes bpm
    if bps.isEmpty then .ok "0000\n0000\n0000\n0000"
    else
      let maxBeat := ((bps.map Prod.fst).max?).getD 0
      let totalMeasures := (⌊maxBeat / 4⌋ + 1).toNat
      ((List.range totalMeasures).mapM fun (m : ℕ) =>
        let mNotes := bps.filterMap fun bp =>
          if ⌊bp.1 / 4⌋ = ((m : ℕ) : ℤ) then some (qmod4 bp.1, bp.2) else none
        sscFormatMeasure mNotes).map
        fun measures => String.intercalate ",\n" measures

/-! ## `SSCExporter._generate_ssc_content` -/

/-- Python's `str.lower`. -/
def pyLower (s : String) : String := s.map Char.toLower

/-- Python's `str.capitalize`: first character upper-cased, the rest
lower-cased. -/
def pyCapitalize (s : String) : String :=
  match s.data with
  | [] => ""
  | c :: rest => String.mk (c.toUpper :: rest.map Char.toLower)

/-- Embeds `SSCExporter._get_ssc_difficulty`. -/
def getSSCDifficulty (difficultyName : String) : String :=
  (([("easy", "Easy"), ("medium", "Medium"), ("hard", "Hard"),
     ("expert", "Challenge")] : List (String × String)).lookup
    (pyLower difficultyName)).getD "Medium"

/-- Left-pad a digit string with zeros to the given width. -/
def padLeftZeros (s : String) (len : ℕ) : String :=
  String.mk (List.replicate (len - s.length) '0') ++ s

/-- Python's fixed-point float formatting (`f"{x:.6f}"`-style) on a
rational: round half to even at the last kept digit. -/
def formatFixed (prec : ℕ) (x : ℚ) : String :=
  let n := pyRound (x * (10 : ℚ) ^ prec)
  let sign := if n < 0 then "-" else ""
  let m := n.natAbs
  sign ++ toString (m / 10 ^ prec) ++ "." ++
    padLeftZeros (toString (m % 10 ^ prec)) prec

/-- The global `.ssc` header block of `SSCExporter._generate_ssc_content`
(built from the first chart's metadata and timing). -/
def sscHeader (metadata : Metadata) (timing : ChartTiming) : String :=
  "#VERSION:0.83;\n" ++
  "#TITLE:" ++ metadata.title ++ ";\n" ++
  "#SUBTITLE:;\n" ++
  "#ARTIST:" ++ metadata.artist ++ ";\n" ++
  "#TITLETRANSLIT:;\n" ++
  "#SUBTITLETRANSLIT:;\n" ++
  "#ARTISTTRANSLIT:;\n" ++
  "#GENRE:;\n" ++
  "#ORIGIN:;\n" ++
  "#CREDIT:AutoStepper MVP (Python) | Original: phr00t/AutoStepper;\n" ++
  "#BANNER:banner.png;\n" ++
  "#BACKGROUND:;\n" ++
  "#PREVIEWVID:;\n" ++
  "#JACKET:;\n" ++
  "#CDIMAGE:;\n" ++
  "#DISCIMAGE:;\n" ++
  "#LYRICSPATH:;\n" ++
  "#CDTITLE:;\n" ++
  "#MUSIC:" ++ metadata.filename ++ ";\n" ++
  "#OFFSET:" ++ formatFixed 6 timing.offset ++ ";\n" ++
  "#SAMPLESTART:15.000000;\n" ++
  "#SAMPLELENGTH:15.000000;\n" ++
  "#SELECTABLE:YES;\n" ++
  "#BPMS:0.000=" ++ formatFixed 6 timing.bpm ++ ";\n" ++
  "#STOPS:;\n" ++
  "#DELAYS:;\n" ++
  "#WARPS:;\n" ++
  "#TIMESIGNATURES:0.000=4=4;\n" ++
  "#TICKCOUNTS:0.000=4;\n" ++
  "#COMBOS:0.000=1;\n" ++
  "#SPEEDS:0.000=1.000=0.000=0;\n" ++
  "#SCROLLS:0.000=1.000;\n" ++
  "#FAKES:;\n" ++
  "#LABELS:0.000=Song Start;\n" ++
  "#BGCHANGES:;\n" ++
  "#KEYSOUNDS:;\n" ++
  "#ATTACKS:;\n\n"

/-- Embeds `SSCExporter._generate_notedata_section`: one `#NOTEDATA` block per
difficulty. -/
def sscNotedataSection (chart : Chart) : Except PyError String :=
  (sscFormatNotes chart.notes chart.timing.bpm).map fun notesStr =>
    "//---------------" ++ chart.difficulty.description ++
    "-----------------\n" ++
    "#NOTEDATA:;\n" ++
    "#CHARTNAME:;\n" ++
    "#STEPSTYPE:" ++ chart.difficulty.type ++ ";\n" ++
    "#DESCRIPTION:" ++ pyCapitalize chart.difficulty.description ++ ";\n" ++
    "#CHARTSTYLE:;\n" ++
    "#DIFFICULTY:" ++ getSSCDifficulty chart.difficulty.description ++
    ";\n" ++
    "#METER:" ++ toString chart.difficulty.feet ++ ";\n" ++
    "#RADARVALUES:0,0,0,0,0;\n" ++
    "#CREDIT:AutoStepper MVP;\n" ++
    "#NOTES:\n" ++ notesStr ++ ";\n\n"

/-- Embeds `SSCExporter._generate_ssc_content`: raises
`ValueError("At least one chart is required")` (the spec's `EmptyChartSet`)
on an empty chart list, otherwise the global header followed by one
notedata section per chart, joined with `'\n'`. -/
def sscGenerateContent (charts : List Chart) : Except PyError String :=
  match charts with
  | [] => .error .emptyChartSet
  | first :: _ =>
    let header := sscHeader first.metadata first.timing
    (charts.mapM sscNotedataSection).map fun sections =>
      header ++ String.intercalate "\n" sections

/-! ## Concrete sample inputs used in closed evaluations -/

/-- A concrete draw stream: every draw is `0`. -/
def sampleRand : Rand := fun _ => 0

/-- A tap step with the given time and pattern. -/
def mkTap (t : ℚ) (p : List ℕ) : Step :=
  { time := t, kind := .tap, directions := [], pattern := p }

/-- A hold step with the given time, pattern and hold end time. -/
def mkHold (t : ℚ) (p : List ℕ) (e : ℚ) : Step :=
  { time := t, kind := .hold, directions := [], pattern := p
    hold_end_time := some e }

/-- Concrete chart metadata. -/
def sampleMetadata : Metadata :=
  { title := "Title", artist := "Artist", album := "", genre := ""
    filename := "song.ogg", credit := "AutoStepper MVP" }

/-- Concrete chart timing (120 BPM). -/
def sampleTiming : ChartTiming := { bpm := 120, offset := 0, duration := 60 }

/-- Concrete chart difficulty block. -/
def sampleDifficulty : ChartDifficulty :=
  { type := "dance-single", description := "medium", feet := 4
    radar := "0,0,0,0,0" }

/-- Concrete analysis block. -/
def sampleAnalysisInfo : AnalysisInfo :=
  { beat_count := 0, step_count := 0, confidence := 4/5, step_density := 0 }

/-- A chart whose note list is empty. -/
def emptyNotesChart : Chart :=
  { metadata := sampleMetadata, timing := sampleTiming
    difficulty := sampleDifficulty, notes := []
    analysis_info := sampleAnalysisInfo }

/-- A chart with a single hold note at time `0` (reachable generator output:
the first beat of a song lies at time `0` and can be promoted to a hold). -/
def holdAtZeroChart : Chart :=
  { emptyNotesChart with notes := [mkHold 0 [1, 0, 0, 0] 2] }

/-- Audio analysis input with no beats and zero tempo. -/
def audioNoBeats : AudioData :=
  { beat_times := [], tempo := 0, duration := 30, filename := "song.ogg" }

/-! ## Lemmas: beat selection -/

/-- Once the accumulator is non-empty, `_select_beats` only ever appends to
it, and what it appends is a subsequence of the remaining beats. -/
theorem selectBeatsLoop_append (density min_gap : ℚ) :
    ∀ (bs acc : List ℚ) (last : ℚ) (g : Rand), acc ≠ [] →
      ∃ ext, (selectBeatsLoop density min_gap bs acc last g).1 = acc ++ ext ∧
        ext.Sublist bs := by
  intro bs
  induction bs with
  | nil =>
    intro acc last g _
    exact ⟨[], by simp [selectBeatsLoop], List.Sublist.refl _⟩
  | cons b bs ih =>
    intro acc last g hacc
    rw [selectBeatsLoop, if_neg (by simpa [List.isEmpty_iff] using hacc)]
    by_cases h1 : b - last < min_gap
    · rw [if_pos h1]
      obtain ⟨ext, he, hs⟩ := ih acc last g hacc
      exact ⟨ext, he, hs.cons b⟩
    · rw [if_neg h1]
      by_cases h2 : Rand.head g < density
      · rw [if_pos h2]
        obtain ⟨ext, he, hs⟩ := ih (acc ++ [b]) b g.tail (by simp)
        exact ⟨b :: ext, by simpa using he, hs.cons₂ b⟩
      · rw [if_neg h2]
        obtain ⟨ext, he, hs⟩ := ih acc last g.tail hacc
        exact ⟨ext, he, hs.cons b⟩

/-- On a non-empty beat list, `_select_beats` keeps the first beat and
extends it with a subsequence of the remaining beats. -/
theorem selectBeats_cons (density min_gap : ℚ) (b : ℚ) (bs : List ℚ)
    (g : Rand) :
    ∃ ext, (selectBeats density min_gap (b :: bs) g).1 = b :: ext ∧
      ext.Sublist bs := by
  rw [selectBeats, if_neg (by simp), selectBeatsLoop, if_pos (by simp)]
  obtain ⟨ext, he, hs⟩ :=
    selectBeatsLoop_append density min_gap bs ([] ++ [b]) b g (by simp)
  exact ⟨ext, by simpa using he, hs⟩

/-- Invariant of the selection loop: consecutive kept beats are at least
`min_gap` apart. -/
theorem selectBeatsLoop_chain (density min_gap : ℚ) :
    ∀ (bs acc : List ℚ) (last : ℚ) (g : Rand),
      acc.Chain' (fun x y => min_gap ≤ y - x) →
      (acc = [] ∨ acc.getLast? = some last) →
      ((selectBeatsLoop density min_gap bs acc last g).1).Chain'
        (fun x y => min_gap ≤ y - x) := by
  intro bs
  induction bs with
  | nil => intro acc last g hc _; simpa [selectBeatsLoop] using hc
  | cons b bs ih =>
    intro acc last g hc hl
    rw [selectBeatsLoop]
    by_cases h0 : acc.isEmpty
    · rw [if_pos h0]
      have hnil : acc = [] := List.isEmpty_iff.mp h0
      subst hnil
      simpa using ih [b] b g (by simp) (Or.inr (by simp))
    · rw [if_neg h0]
      have hne : acc ≠ [] := by simpa [List.isEmpty_iff] using h0
      have hlast : acc.getLast? = some last := hl.resolve_left hne
      by_cases h1 : b - last < min_gap
      · rw [if_pos h1]; exact ih acc last g hc hl
      · rw [if_neg h1]
        by_cases h2 : Rand.head g < density
        · rw [if_pos h2]
          apply ih (acc ++ [b]) b g.tail
          · rw [List.chain'_append]
            refine ⟨hc, List.chain'_singleton b, ?_⟩
            intro x hx y hy
            rw [hlast] at hx
            simp only [Option.mem_def, Option.some.injEq, List.head?_cons] at hx hy
            subst hx; subst hy
            linarith [not_lt.mp h1]
          · right
            simp
        · rw [if_neg h2]; exact ih acc last g.tail hc hl

/-- The kept beats of `_select_beats` are pairwise at least `min_gap`
apart. -/
theorem selectBeats_chain (density min_gap : ℚ) (beats : List ℚ) (g : Rand) :
    ((selectBeats density min_gap beats g).1).Chain'
      (fun x y => min_gap ≤ y - x) := by
  rw [selectBeats]
  by_cases h : beats.isEmpty
  · rw [if_pos h]; simp
  · rw [if_neg h]
    exact selectBeatsLoop_chain density min_gap beats [] (-999) g (by simp)
      (Or.inl rfl)

/-! ## Lemmas: step creation preserves the beat times -/

/-- Every step emitted by `_generate_step_at_time` carries the beat time it
was created for. -/
theorem generateStepAtTime_time (cfg : Config) (difficulty : String)
    (lastDir : Option Direction) (t : ℚ) (i : ℕ) (g : Rand) :
    (generateStepAtTime cfg difficulty lastDir t i g).1.time = t := by
  simp only [generateStepAtTime]
  split
  · split
    · rfl
    · rfl
  · rfl

/-- The steps built by the `_generate_steps` loop carry exactly the selected
beat times, in order. -/
theorem generateStepsLoop_times (cfg : Config) (difficulty : String) :
    ∀ (ts : List ℚ) (i : ℕ) (lastDir : Option Direction) (g : Rand),
      ((generateStepsLoop cfg difficulty ts i lastDir g).1).map Step.time =
        ts := by
  intro ts
  induction ts with
  | nil => intro i ld g; simp [generateStepsLoop]
  | cons t ts ih =>
    intro i ld g
    simp [generateStepsLoop, generateStepAtTime_time, ih]

/-! ## Lemmas: hold promotion -/

/-- The hold-promotion body never changes the step's start time. -/
theorem addHoldsBody_time (orig : List Step) (a b : ℚ) (s : Step) (i : ℕ)
    (g : Rand) : (addHoldsBody orig a b s i g).1.time = s.time := by
  simp only [addHoldsBody]
  split
  · split
    · split
      · rfl
      · rfl
    · rfl
  · rfl

/-- The hold-promotion body either leaves the step unchanged or promotes a
tap not in the last two positions to a hold, changing only the kind and the
hold end time, with the end time more than `0.5` before the next step's
time. -/
theorem addHoldsBody_spec (orig : List Step) (a b : ℚ) (s : Step) (i : ℕ)
    (g : Rand) :
    (addHoldsBody orig a b s i g).1 = s ∨
      (s.kind = .tap ∧ i < orig.length - 2 ∧
        ∃ e, (addHoldsBody orig a b s i g).1 =
            { s with kind := .hold, hold_end_time := some e } ∧
          e < (orig.getD (i + 1) s).time - 1/2) := by
  simp only [addHoldsBody]
  by_cases h1 : s.kind = .tap
  · rw [if_pos h1]
    by_cases h2 : Rand.head g < 1/10 ∧ i < orig.length - 2
    · rw [if_pos h2]
      by_cases h3 :
          s.time + (a + (b - a) * Rand.head (Rand.tail g)) <
            (orig.getD (i + 1) s).time - 1/2
      · rw [if_pos h3]
        exact Or.inr ⟨h1, h2.2,
          s.time + (a + (b - a) * Rand.head (Rand.tail g)), rfl, h3⟩
      · rw [if_neg h3]
        exact Or.inl rfl
    · rw [if_neg h2]
      exact Or.inl rfl
  · rw [if_neg h1]
    exact Or.inl rfl

/-- The hold-promotion loop keeps the number of steps. -/
theorem addHoldsLoop_length (orig : List Step) (a b : ℚ) :
    ∀ (l : List Step) (i : ℕ) (g : Rand),
      ((addHoldsLoop orig a b l i g).1).length = l.length := by
  intro l
  induction l with
  | nil => intro i g; simp [addHoldsLoop]
  | cons s rest ih => intro i g; simp [addHoldsLoop, ih]

/-- The hold-promotion loop keeps every start time. -/
theorem addHoldsLoop_times (orig : List Step) (a b : ℚ) :
    ∀ (l : List Step) (i : ℕ) (g : Rand),
      ((addHoldsLoop orig a b l i g).1).map Step.time = l.map Step.time := by
  intro l
  induction l with
  | nil => intro i g; simp [addHoldsLoop]
  | cons s rest ih => intro i g; simp [addHoldsLoop, addHoldsBody_time, ih]

/-- Element-wise description of the hold-promotion loop: each step is either
untouched, or is a promoted tap whose absolute index is below
`len(orig) - 2` and whose hold end time precedes the next original step's
time by more than `0.5`. -/
theorem addHoldsLoop_getD (orig : List Step) (a b : ℚ) :
    ∀ (l : List Step) (i : ℕ) (g : Rand) (j : ℕ), j < l.length →
      ((addHoldsLoop orig a b l i g).1).getD j dummyStep =
          l.getD j dummyStep ∨
        ((l.getD j dummyStep).kind = .tap ∧ i + j < orig.length - 2 ∧
          ∃ e, ((addHoldsLoop orig a b l i g).1).getD j dummyStep =
              { l.getD j dummyStep with
                  kind := .hold, hold_end_time := some e } ∧
            e < (orig.getD (i + j + 1) (l.getD j dummyStep)).time - 1/2) := by
  intro l
  induction l with
  | nil => intro i g j hj; simp at hj
  | cons s rest ih =>
    intro i g j hj
    match j with
    | 0 =>
      simpa [addHoldsLoop] using addHoldsBody_spec orig a b s i g
    | j + 1 =>
      have h := ih (i + 1) (addHoldsBody orig a b s i g).2 j
        (by simpa using hj)
      have harith : i + 1 + j = i + (j + 1) := by omega
      rw [harith] at h
      simpa [addHoldsLoop] using h

/-! ## Lemmas: `_generate_steps` -/

/-- On sorted beats and nonzero tempo, `_generate_steps` succeeds, and its
output carries exactly the times chosen by `_select_beats`, in order (the
final sort is the identity because the times are already ascending). -/
theorem generateSteps_ok (cfg : Config) (difficulty : String)
    (beats : List ℚ) (tempo : ℚ) (g : Rand)
    (hsorted : beats.Pairwise (· < ·)) (htempo : tempo ≠ 0) :
    ∃ steps, generateSteps cfg difficulty beats tempo g = .ok steps ∧
      steps.map Step.time =
        (selectBeats cfg.step_density cfg.min_gap beats g).1 := by
  simp only [generateSteps]
  by_cases h0 : beats.isEmpty
  · rw [if_pos h0]
    have hnil : beats = [] := List.isEmpty_iff.mp h0
    subst hnil
    exact ⟨[], rfl, by simp [selectBeats]⟩
  · rw [if_neg h0]
    have hne : beats ≠ [] := by simpa [List.isEmpty_iff] using h0
    obtain ⟨bb, bs, hbeats⟩ : ∃ bb bs, beats = bb :: bs := by
      cases beats with
      | nil => exact absurd rfl hne
      | cons x xs => exact ⟨x, xs, rfl⟩
    have hsub : (selectBeats cfg.step_density cfg.min_gap beats g).1.Sublist
        beats := by
      obtain ⟨ext, he, hs⟩ :=
        selectBeats_cons cfg.step_density cfg.min_gap bb bs g
      rw [hbeats, he]
      exact hs.cons₂ bb
    have hpair : (selectBeats cfg.step_density cfg.min_gap beats g).1.Pairwise
        (· < ·) := List.Pairwise.sublist hsub hsorted
    have htimes :
        ((generateStepsLoop cfg difficulty
            (selectBeats cfg.step_density cfg.min_gap beats g).1 0 none
            (selectBeats cfg.step_density cfg.min_gap beats g).2).1).map
          Step.time =
        (selectBeats cfg.step_density cfg.min_gap beats g).1 :=
      generateStepsLoop_times cfg difficulty _ 0 none _
    have hgen_pair :
        ((generateStepsLoop cfg difficulty
            (selectBeats cfg.step_density cfg.min_gap beats g).1 0 none
            (selectBeats cfg.step_density cfg.min_gap beats g).2).1).Pairwise
          (fun x y => stepTimeLE x y) := by
      have := htimes ▸ (hpair.imp le_of_lt)
      rw [List.pairwise_map] at this
      exact this.imp fun hxy => by
        simpa [stepTimeLE, decide_eq_true_eq] using hxy
    by_cases hh : cfg.holds_enabled
    · rw [if_pos hh, addHolds]
      by_cases hempty :
          ((generateStepsLoop cfg difficulty
              (selectBeats cfg.step_density cfg.min_gap beats g).1 0 none
              (selectBeats cfg.step_density cfg.min_gap beats g).2).1).isEmpty
      · rw [if_pos hempty]
        refine ⟨_, rfl, ?_⟩
        beta_reduce
        rw [List.mergeSort_of_sorted hgen_pair]
        exact htimes
      · rw [if_neg hempty, if_neg htempo]
        have hot :
            ((addHoldsLoop
                (generateStepsLoop cfg difficulty
                  (selectBeats cfg.step_density cfg.min_gap beats g).1 0 none
                  (selectBeats cfg.step_density cfg.min_gap beats g).2).1
                (60 / tempo * 2) (60 / tempo * 4)
                (generateStepsLoop cfg difficulty
                  (selectBeats cfg.step_density cfg.min_gap beats g).1 0 none
                  (selectBeats cfg.step_density cfg.min_gap beats g).2).1 0
                (generateStepsLoop cfg difficulty
                  (selectBeats cfg.step_density cfg.min_gap beats g).1 0 none
                  (selectBeats cfg.step_density cfg.min_gap beats g).2).2.2).1).map
              Step.time =
            (selectBeats cfg.step_density cfg.min_gap beats g).1 := by
          rw [addHoldsLoop_times]
          exact htimes
        have hout_pair :
            ((addHoldsLoop
                (generateStepsLoop cfg difficulty
                  (selectBeats cfg.step_density cfg.min_gap beats g).1 0 none
                  (selectBeats cfg.step_density cfg.min_gap beats g).2).1
                (60 / tempo * 2) (60 / tempo * 4)
                (generateStepsLoop cfg difficulty
                  (selectBeats cfg.step_density cfg.min_gap beats g).1 0 none
                  (selectBeats cfg.step_density cfg.min_gap beats g).2).1 0
                (generateStepsLoop cfg difficulty
                  (selectBeats cfg.step_density cfg.min_gap beats g).1 0 none
                  (selectBeats cfg.step_density cfg.min_gap beats g).2).2.2).1).Pairwise
              (fun x y => stepTimeLE x y = true) := by
          have h2 := hot ▸ (hpair.imp le_of_lt)
          rw [List.pairwise_map] at h2
          exact h2.imp fun hxy => by
            simpa [stepTimeLE, decide_eq_true_eq] using hxy
        refine ⟨_, rfl, ?_⟩
        beta_reduce
        rw [List.mergeSort_of_sorted hout_pair]
        exact hot
    · rw [if_neg hh]
      refine ⟨_, rfl, ?_⟩
      beta_reduce
      rw [List.mergeSort_of_sorted hgen_pair]
      exact htimes

/-! ## Claim theorems -/

/-- C1.  For every valid AudioAnalysis (strictly ascending beat times,
nonzero tempo) and every difficulty profile, `_generate_steps` succeeds and
its output contains at most as many events as there are beats; the sequence
of event start times is a strictly ascending subsequence of the input beat
times; and when the beat list is non-empty the first beat is always kept. -/
theorem generateSteps_subsequence_of_beats (cfg : Config)
    (difficulty : String) (beats : List ℚ) (tempo : ℚ) (g : Rand)
    (hsorted : beats.Pairwise (· < ·)) (htempo : tempo ≠ 0) :
    ∃ steps, generateSteps cfg difficulty beats tempo g = .ok steps ∧
      steps.length ≤ beats.length ∧
      (steps.map Step.time).Sublist beats ∧
      (steps.map Step.time).Pairwise (· < ·) ∧
      (beats ≠ [] → (steps.map Step.time).head? = beats.head?) := by
  obtain ⟨steps, hok, htimes⟩ :=
    generateSteps_ok cfg difficulty beats tempo g hsorted htempo
  have hsub : (steps.map Step.time).Sublist beats := by
    cases beats with
    | nil =>
      simp [selectBeats] at htimes
      simp [htimes]
    | cons bb bs =>
      obtain ⟨ext, he, hs⟩ :=
        selectBeats_cons cfg.step_density cfg.min_gap bb bs g
      rw [htimes, he]
      exact hs.cons₂ bb
  refine ⟨steps, hok, ?_, hsub, List.Pairwise.sublist hsub hsorted, ?_⟩
  · have hlen := hsub.length_le
    simpa using hlen
  · intro hne
    cases beats with
    | nil => exact absurd rfl hne
    | cons bb bs =>
      obtain ⟨ext, he, hs⟩ :=
        selectBeats_cons cfg.step_density cfg.min_gap bb bs g
      rw [htimes, he]
      simp

/-- Witness for C1: the medium profile on beats `[0, 1, 2]` at 120 BPM. -/
theorem generateSteps_subsequence_of_beats_witness :
    ([0, 1, 2] : List ℚ).Pairwise (· < ·) ∧ (120 : ℚ) ≠ 0 ∧
      ∃ steps, generateSteps mediumConfig "medium" [0, 1, 2] 120 sampleRand =
          .ok steps ∧
        steps.length ≤ ([0, 1, 2] : List ℚ).length ∧
        (steps.map Step.time).Sublist [0, 1, 2] ∧
        (steps.map Step.time).Pairwise (· < ·) ∧
        (([0, 1, 2] : List ℚ) ≠ [] →
          (steps.map Step.time).head? = ([0, 1, 2] : List ℚ).head?) :=
  ⟨by norm_num [List.pairwise_cons], by norm_num,
    generateSteps_subsequence_of_beats mediumConfig "medium" [0, 1, 2] 120
      sampleRand (by norm_num [List.pairwise_cons]) (by norm_num)⟩

/-- C2.  For every difficulty profile and valid beat list, any two
consecutive events of the generator's output have start times that differ
by at least the profile's `min_gap`. -/
theorem generateSteps_min_gap (cfg : Config) (difficulty : String)
    (beats : List ℚ) (tempo : ℚ) (g : Rand)
    (hsorted : beats.Pairwise (· < ·)) (htempo : tempo ≠ 0) :
    ∃ steps, generateSteps cfg difficulty beats tempo g = .ok steps ∧
      steps.Chain' (fun a b => cfg.min_gap ≤ b.time - a.time) := by
  obtain ⟨steps, hok, htimes⟩ :=
    generateSteps_ok cfg difficulty beats tempo g hsorted htempo
  refine ⟨steps, hok, ?_⟩
  have hchain := selectBeats_chain cfg.step_density cfg.min_gap beats g
  rw [← htimes, List.chain'_map] at hchain
  exact hchain

/-- Witness for C2: the medium profile on beats `[0, 1, 2]` at 120 BPM. -/
theorem generateSteps_min_gap_witness :
    ([0, 1, 2] : List ℚ).Pairwise (· < ·) ∧ (120 : ℚ) ≠ 0 ∧
      ∃ steps, generateSteps mediumConfig "medium" [0, 1, 2] 120 sampleRand =
          .ok steps ∧
        steps.Chain' (fun a b => mediumConfig.min_gap ≤ b.time - a.time) :=
  ⟨by norm_num [List.pairwise_cons], by norm_num,
    generateSteps_min_gap mediumConfig "medium" [0, 1, 2] 120 sampleRand
      (by norm_num [List.pairwise_cons]) (by norm_num)⟩

/-- C3.  Degenerate inputs.  On an empty beat list the generator
produces an empty step list and a minimal chart without failing; but on a
zero tempo with a non-empty beat list and a holds-enabled profile the code
divides by zero (`beat_length = 60.0 / tempo` in `_add_holds`) — the
embedded run returns the `ZeroDivisionError` outcome instead of the
empty-or-minimal chart promised by the spec. -/
theorem generateSteps_zero_tempo_behavior :
    generateSteps (lookupConfig "medium") "medium" [] 0 sampleRand =
        .ok [] ∧
      (∃ chart, generateChart "medium" audioNoBeats none none sampleRand =
          .ok chart ∧ chart.notes = []) ∧
      generateSteps (lookupConfig "medium") "medium" [0, 1, 2] 0 sampleRand =
        .error .zeroDivision := by
  refine ⟨rfl, ⟨_, rfl, rfl⟩, ?_⟩
  have hcfg : lookupConfig "medium" = mediumConfig := rfl
  rw [hcfg]
  norm_num [generateSteps, mediumConfig, selectBeats, selectBeatsLoop,
    sampleRand, Rand.head, Rand.tail, generateStepsLoop, generateStepAtTime,
    createSingleStep, chooseDirection, randChoice, DIRECTIONS, directionCode,
    addHolds, Except.map]

/-- C4.  Determinism: two generator runs with the same beats, tempo,
profile and seed stream produce identical step sequences. -/
theorem generateSteps_deterministic (cfg : Config) (difficulty : String)
    (beats : List ℚ) (tempo : ℚ) (seed1 seed2 : Rand)
    (hseed : ∀ n, seed1 n = seed2 n) :
    generateSteps cfg difficulty beats tempo seed1 =
      generateSteps cfg difficulty beats tempo seed2 := by
  have h : seed1 = seed2 := funext hseed
  rw [h]

/-- Witness for C4: two runs from the same all-zero draw stream. -/
theorem generateSteps_deterministic_witness :
    (∀ n, sampleRand n = sampleRand n) ∧
      generateSteps mediumConfig "medium" [0, 1, 2] 120 sampleRand =
        generateSteps mediumConfig "medium" [0, 1, 2] 120 sampleRand :=
  ⟨fun _ => rfl,
    generateSteps_deterministic mediumConfig "medium" [0, 1, 2] 120
      sampleRand sampleRand (fun _ => rfl)⟩

/-- C9.  The hold-promotion pass succeeds on nonzero tempo and changes
only the kind and hold end time of selected tap events (those not among the
last two positions, and only when the candidate end time precedes the next
event's start time by more than `0.5` seconds); every event keeps its start
time, the event count and relative order are unchanged, and sortedness by
start time is preserved. -/
theorem addHolds_frame (steps : List Step) (tempo : ℚ) (g : Rand)
    (htempo : tempo ≠ 0) :
    ∃ out g', addHolds steps tempo g = .ok (out, g') ∧
      out.length = steps.length ∧
      out.map Step.time = steps.map Step.time ∧
      (∀ j, j < steps.length →
        out.getD j dummyStep = steps.getD j dummyStep ∨
          ((steps.getD j dummyStep).kind = .tap ∧ j < steps.length - 2 ∧
            ∃ e, out.getD j dummyStep =
                { steps.getD j dummyStep with
                    kind := .hold, hold_end_time := some e } ∧
              e < (steps.getD (j + 1) dummyStep).time - 1/2)) ∧
      (steps.Pairwise (fun a b => a.time ≤ b.time) →
        out.Pairwise (fun a b => a.time ≤ b.time)) := by
  rw [addHolds]
  by_cases hempty : steps.isEmpty
  · rw [if_pos hempty]
    have hnil : steps = [] := List.isEmpty_iff.mp hempty
    subst hnil
    exact ⟨[], g, rfl, rfl, rfl, fun j hj => absurd hj (by simp), fun h => h⟩
  · rw [if_neg hempty, if_neg htempo]
    refine ⟨_, _, rfl, addHoldsLoop_length _ _ _ _ _ _,
      addHoldsLoop_times _ _ _ _ _ _, ?_, ?_⟩
    · intro j hj
      have h := addHoldsLoop_getD steps (60/tempo*2) (60/tempo*4) steps 0 g
        j hj
      simp only [Nat.zero_add] at h
      rcases h with h | ⟨h1, h2, e, h3, h4⟩
      · exact Or.inl h
      · refine Or.inr ⟨h1, h2, e, h3, ?_⟩
        have hj1 : j + 1 < steps.length := by omega
        rw [List.getD_eq_getElem steps _ hj1] at h4
        rw [List.getD_eq_getElem steps _ hj1]
        exact h4
    · intro hp
      have ht := addHoldsLoop_times steps (60/tempo*2) (60/tempo*4) steps 0 g
      have hmap : (steps.map Step.time).Pairwise (· ≤ ·) :=
        List.pairwise_map.mpr hp
      rw [← ht] at hmap
      exact List.pairwise_map.mp hmap

/-- Witness for C9: three taps at times `0, 10, 20`, 120 BPM; the first tap
is promoted to a hold. -/
theorem addHolds_frame_witness :
    (120 : ℚ) ≠ 0 ∧
      ∃ out g', addHolds [mkTap 0 [1, 0, 0, 0], mkTap 10 [0, 1, 0, 0],
          mkTap 20 [0, 0, 1, 0]] 120 sampleRand = .ok (out, g') ∧
        out.length = 3 ∧ out.map Step.time = [0, 10, 20] := by
  refine ⟨by norm_num, ?_⟩
  obtain ⟨out, g', hok, hlen, htimes, -, -⟩ :=
    addHolds_frame [mkTap 0 [1, 0, 0, 0], mkTap 10 [0, 1, 0, 0],
      mkTap 20 [0, 0, 1, 0]] 120 sampleRand (by norm_num)
  exact ⟨out, g', hok, by simpa using hlen, by simpa [mkTap] using htimes⟩

/-- C10.  A difficulty name outside the four known tiers silently falls
back to the medium configuration and reports a feet rating of `4` (both
lookups use `dict.get` with a default, so no exception is possible). -/
theorem unknown_difficulty_fallback (difficulty : String)
    (h : difficulty ∉ (["easy", "medium", "hard", "expert"] : List String)) :
    lookupConfig difficulty = mediumConfig ∧
      difficultyRating difficulty = 4 := by
  simp only [List.mem_cons, List.not_mem_nil, or_false, not_or] at h
  obtain ⟨h1, h2, h3, h4⟩ := h
  have e1 : (difficulty == "easy") = false := beq_eq_false_iff_ne.mpr h1
  have e2 : (difficulty == "medium") = false := beq_eq_false_iff_ne.mpr h2
  have e3 : (difficulty == "hard") = false := beq_eq_false_iff_ne.mpr h3
  have e4 : (difficulty == "expert") = false := beq_eq_false_iff_ne.mpr h4
  constructor
  · simp [lookupConfig, DIFFICULTY_CONFIGS, List.lookup, e1, e2, e3, e4]
  · simp [difficultyRating, List.lookup, e1, e2, e3, e4]

/-- Witness for C10: the difficulty name `"beginner"`. -/
theorem unknown_difficulty_fallback_witness :
    ("beginner" ∉ (["easy", "medium", "hard", "expert"] : List String)) ∧
      (lookupConfig "beginner" = mediumConfig ∧
        difficultyRating "beginner" = 4) :=
  ⟨by decide, unknown_difficulty_fallback "beginner" (by decide)⟩

/-! ## Lemmas: measure formatting -/

/-- A list of length 4 is a four-element literal. -/
theorem exists_length_four (p : List ℕ) (h : p.length = 4) :
    ∃ a b c d, p = [a, b, c, d] := by
  match p, h with
  | [a, b, c, d], _ => exact ⟨a, b, c, d, rfl⟩

/-- Merging a 4-digit pattern into an all-zero line yields the pattern. -/
theorem mergeLine_zeros (p : List ℕ) (h : p.length = 4) :
    mergeLine [0, 0, 0, 0] p = p := by
  obtain ⟨a, b, c, d, rfl⟩ := exists_length_four p h
  simp [mergeLine]

/-- Reading a replicated grid with `getD`, in bounds. -/
theorem getD_replicate_of_lt {α : Type} (n i : ℕ) (a d : α) (h : i < n) :
    (List.replicate n a).getD i d = a := by
  rw [List.getD_eq_getElem _ _ (by simpa using h)]
  simp

/-- Field projections of the sample constructors (used to reduce the kind
match of the placement functions without unfolding the record). -/
theorem mkTap_kind (t : ℚ) (p : List ℕ) : (mkTap t p).kind = .tap := rfl

/-- The pattern of `mkTap`. -/
theorem mkTap_pattern (t : ℚ) (p : List ℕ) : (mkTap t p).pattern = p := rfl

/-- The kind of `mkHold`. -/
theorem mkHold_kind (t : ℚ) (p : List ℕ) (e : ℚ) :
    (mkHold t p e).kind = .hold := rfl

/-- The pattern of `mkHold`. -/
theorem mkHold_pattern (t : ℚ) (p : List ℕ) (e : ℚ) :
    (mkHold t p e).pattern = p := rfl

/-- The hold end time of `mkHold`. -/
theorem mkHold_hold_end_time (t : ℚ) (p : List ℕ) (e : ℚ) :
    (mkHold t p e).hold_end_time = some e := rfl

/-- The time of `mkHold`. -/
theorem mkHold_time (t : ℚ) (p : List ℕ) (e : ℚ) :
    (mkHold t p e).time = t := rfl

/-- The modern quantizer's chosen subdivision is at least `4`. -/
theorem sscRequiredSubdivision_ge_four (measureNotes : List (ℚ × Step)) :
    4 ≤ sscRequiredSubdivision measureNotes := by
  suffices h : ∀ (l : List (ℚ × Step)) (init : ℕ),
      init ≤ l.foldl (fun required bn =>
        match sscNoteSubdivision (bn.1 / 4) with
        | some s => if s > required then s else required
        | none => required) init by
    exact h measureNotes 4
  intro l
  induction l with
  | nil => intro init; simp
  | cons x xs ih =>
    intro init
    rw [List.foldl_cons]
    refine le_trans ?_ (ih _)
    cases hs : sscNoteSubdivision (x.1 / 4) with
    | none => simp
    | some s =>
      dsimp only
      split <;> omega

/-- The legacy quantizer's chosen subdivision is at least `4`. -/
theorem legacySubdivision_ge_four (x : ℚ) : 4 ≤ legacySubdivision x := by
  simp only [legacySubdivision]
  cases hf : smSubdivisions.find? (fun (s : ℕ) => max 4 ⌈x + 1⌉ ≤ (s : ℤ))
    with
  | none => simp
  | some s =>
    have hp := List.find?_some hf
    simp only [decide_eq_true_eq] at hp
    have h4 : (4 : ℤ) ≤ (s : ℤ) := le_trans (le_max_left _ _) hp
    simp only [Option.getD_some]
    exact_mod_cast h4

/-! ## Claim theorems: measure formatting -/

/-- C5 counterexample.  Claim C5 asserts that both encoders merge
events landing on the same grid line by element-wise maximum.  The legacy
encoder does not: two taps with patterns `1000` and `0010` on line `0`
leave that line as `0010` (the later note overwrites the earlier one),
not the element-wise maximum `1010`. -/
theorem legacy_same_line_overwrites :
    legacyFormatMeasureLines
        [(0, mkTap 0 [1, 0, 0, 0]), (0, mkTap 0 [0, 0, 1, 0])] =
      [[0, 0, 1, 0], [0, 0, 0, 0], [0, 0, 0, 0], [0, 0, 0, 0]] ∧
    ([[0, 0, 1, 0], [0, 0, 0, 0], [0, 0, 0, 0], [0, 0, 0, 0]] :
        List (List ℕ)).getD 0 [] ≠
      List.zipWith max [1, 0, 0, 0] [0, 0, 1, 0] := by
  constructor
  · norm_num [legacyFormatMeasureLines, legacySubdivision, smSubdivisions,
      legacyPlaceNote, mkTap, List.max?, List.find?]
    decide
  · decide

/-- C5 (amended).  The modern encoder merges events on the same grid
line by element-wise maximum of their digit patterns (two taps `1000` and
`0010` produce `1010`); the legacy encoder instead overwrites the line, so
only the last event's pattern survives. -/
theorem same_line_merge_policy (t1 t2 : ℚ) (p q : List ℕ)
    (hp : p.length = 4) (hq : q.length = 4) :
    sscFormatMeasureLines [(0, mkTap t1 p), (0, mkTap t2 q)] =
      .ok [List.zipWith max p q, [0, 0, 0, 0], [0, 0, 0, 0], [0, 0, 0, 0]] ∧
    legacyFormatMeasureLines [(0, mkTap t1 p), (0, mkTap t2 q)] =
      [q, [0, 0, 0, 0], [0, 0, 0, 0], [0, 0, 0, 0]] := by
  have hsub : sscRequiredSubdivision [(0, mkTap t1 p), (0, mkTap t2 q)] = 4 := by
    norm_num [sscRequiredSubdivision, sscNoteSubdivision, smSubdivisions,
      pyRound, List.find?, mkTap]
  constructor
  · rw [sscFormatMeasureLines, if_neg (by simp), hsub]
    simp only [List.foldlM, sscPlaceNote, mkTap]
    norm_num [pyRound]
    rw [mergeLine_zeros p hp]
    show Except.bind _ _ = _
    rw [Except.bind]
    simp [mergeLine]
  · rw [legacyFormatMeasureLines, if_neg (by simp)]
    have hmax : (([(0, mkTap t1 p), (0, mkTap t2 q)].map Prod.fst).max?).getD
        (0 : ℚ) = 0 := by
      simp [List.max?]
    have hleg : legacySubdivision 0 = 4 := by
      norm_num [legacySubdivision, smSubdivisions, List.find?]
    rw [hmax]
    simp only [hleg]
    simp only [List.foldl, legacyPlaceNote, mkTap]
    norm_num [List.replicate]

/-- Witness for C5 (amended): the concrete patterns `1000` and `0010`, whose
merge under the modern encoder is `1010`. -/
theorem same_line_merge_policy_witness :
    ([1, 0, 0, 0] : List ℕ).length = 4 ∧ ([0, 0, 1, 0] : List ℕ).length = 4 ∧
    (sscFormatMeasureLines [(0, mkTap 0 [1, 0, 0, 0]), (0, mkTap 0 [0, 0, 1, 0])] =
        .ok [[1, 0, 1, 0], [0, 0, 0, 0], [0, 0, 0, 0], [0, 0, 0, 0]] ∧
      legacyFormatMeasureLines
          [(0, mkTap 0 [1, 0, 0, 0]), (0, mkTap 0 [0, 0, 1, 0])] =
        [[0, 0, 1, 0], [0, 0, 0, 0], [0, 0, 0, 0], [0, 0, 0, 0]]) := by
  refine ⟨by decide, by decide, ?_⟩
  have h := same_line_merge_policy 0 0 [1, 0, 0, 0] [0, 0, 1, 0]
    (by decide) (by decide)
  simpa using h

/-- C6 counterexample.  Claim C6 asserts that under both encoders a
note's line index is `round(fraction × subdivision)` clamped.  The legacy
encoder truncates instead of rounding: a tap at position-in-measure `11/4`
(subdivision `4`, `fraction × subdivision = 2.75`) lands on line `2`,
while `round(2.75) = 3` and line `3` stays empty. -/
theorem legacy_line_index_truncates :
    legacyFormatMeasureLines [(11/4, mkTap (11/8) [1, 0, 0, 0])] =
      [[0, 0, 0, 0], [0, 0, 0, 0], [1, 0, 0, 0], [0, 0, 0, 0]] ∧
    legacySubdivision (11/4) = 4 ∧
    pyRound (11/4 / 4 * ((4 : ℕ) : ℚ)) = 3 ∧
    ([[0, 0, 0, 0], [0, 0, 0, 0], [1, 0, 0, 0], [0, 0, 0, 0]] :
        List (List ℕ)).getD 3 [] ≠ [1, 0, 0, 0] := by
  have hleg : legacySubdivision (11/4) = 4 := by
    have hc : ⌈(15:ℚ)/4⌉ = (4:ℤ) := by
      rw [Int.ceil_eq_iff]
      norm_num
    norm_num [legacySubdivision, smSubdivisions, List.find?, hc]
  refine ⟨?_, hleg, ?_, by decide⟩
  · rw [legacyFormatMeasureLines, if_neg (by simp)]
    have hmax : ((([((11:ℚ)/4, mkTap (11/8) [1, 0, 0, 0])]).map
        Prod.fst).max?).getD (0 : ℚ) = 11/4 := by
      simp [List.max?]
    rw [hmax]
    simp only [hleg]
    simp only [List.foldl, legacyPlaceNote, mkTap]
    norm_num [List.replicate]
    decide
  · norm_num [pyRound]

/-- C6 (amended).  For a single note at position-in-measure `f ∈ [0,4)`
the modern encoder places the pattern at line
`min(toNat(round_half_even(f/4 × s)), s - 1)` for its chosen subdivision
`s`, while the legacy encoder places it at
`min(toNat(⌊f/4 × s'⌋), s' - 1)` (truncation) for its chosen subdivision
`s'`. -/
theorem line_index_policy (f t : ℚ) (p : List ℕ) (h0 : 0 ≤ f) (h4 : f < 4)
    (hp : p.length = 4) :
    sscFormatMeasureLines [(f, mkTap t p)] =
      .ok ((List.replicate (sscRequiredSubdivision [(f, mkTap t p)])
          [0, 0, 0, 0]).set
        (min (Int.toNat (pyRound
            (f / 4 * ((sscRequiredSubdivision [(f, mkTap t p)] : ℕ) : ℚ))))
          (sscRequiredSubdivision [(f, mkTap t p)] - 1)) p) ∧
    legacyFormatMeasureLines [(f, mkTap t p)] =
      (List.replicate (legacySubdivision f) [0, 0, 0, 0]).set
        (min (Int.toNat ⌊f / 4 * ((legacySubdivision f : ℕ) : ℚ)⌋)
          (legacySubdivision f - 1)) p := by
  constructor
  · have hs4 := sscRequiredSubdivision_ge_four [(f, mkTap t p)]
    rw [sscFormatMeasureLines, if_neg (by simp)]
    simp only [List.foldlM, sscPlaceNote, mkTap_kind, mkTap_pattern]
    show Except.bind _ _ = _
    rw [Except.bind]
    have hidx : min (Int.toNat (pyRound
        (f / 4 * ((sscRequiredSubdivision [(f, mkTap t p)] : ℕ) : ℚ))))
        (sscRequiredSubdivision [(f, mkTap t p)] - 1) <
        sscRequiredSubdivision [(f, mkTap t p)] := by omega
    rw [getD_replicate_of_lt _ _ _ _ hidx, mergeLine_zeros p hp]
    rfl
  · have hl4 := legacySubdivision_ge_four f
    rw [legacyFormatMeasureLines, if_neg (by simp)]
    have hmax : ((([(f, mkTap t p)]).map Prod.fst).max?).getD (0 : ℚ) =
        f := by
      simp [List.max?]
    rw [hmax]
    simp only [List.foldl, legacyPlaceNote, mkTap_kind, mkTap_pattern]

/-- Witness for C6 (amended): a tap at position-in-measure `3/2`. -/
theorem line_index_policy_witness :
    (0 : ℚ) ≤ 3/2 ∧ (3/2 : ℚ) < 4 ∧ ([0, 1, 0, 0] : List ℕ).length = 4 ∧
    (sscFormatMeasureLines [(3/2, mkTap 7 [0, 1, 0, 0])] =
      .ok ((List.replicate (sscRequiredSubdivision [(3/2, mkTap 7 [0, 1, 0, 0])])
          [0, 0, 0, 0]).set
        (min (Int.toNat (pyRound ((3:ℚ)/2 / 4 *
            ((sscRequiredSubdivision [(3/2, mkTap 7 [0, 1, 0, 0])] : ℕ) : ℚ))))
          (sscRequiredSubdivision [(3/2, mkTap 7 [0, 1, 0, 0])] - 1))
        [0, 1, 0, 0]) ∧
    legacyFormatMeasureLines [(3/2, mkTap 7 [0, 1, 0, 0])] =
      (List.replicate (legacySubdivision (3/2)) [0, 0, 0, 0]).set
        (min (Int.toNat ⌊(3:ℚ)/2 / 4 * ((legacySubdivision (3/2) : ℕ) : ℚ)⌋)
          (legacySubdivision (3/2) - 1)) [0, 1, 0, 0]) :=
  ⟨by norm_num, by norm_num, by decide,
    line_index_policy (3/2) 7 [0, 1, 0, 0] (by norm_num) (by norm_num)
      (by decide)⟩

/-- The function `replaceDigit` preserves the pattern length. -/
theorem replaceDigit_length (o n : ℕ) (p : List ℕ) :
    (replaceDigit o n p).length = p.length := by
  simp [replaceDigit]

/-- C7 counterexample.  Claim C7 asserts that both encoders place a
hold's end marker `subdivision / 4` lines after its start line.  The legacy
encoder places it a fixed `4` lines later: a hold starting on line `0` of a
subdivision-4 measure gets its end marker on line `min(0 + 4, 3) = 3`,
while `subdivision / 4 = 1` and line `1` stays empty. -/
theorem legacy_hold_end_offset_fixed_four :
    legacyFormatMeasureLines [(0, mkHold 0 [1, 0, 0, 0] 2)] =
      [[2, 0, 0, 0], [0, 0, 0, 0], [0, 0, 0, 0], [3, 0, 0, 0]] ∧
    legacySubdivision 0 = 4 ∧ (4 : ℕ) / 4 = 1 ∧
    ([[2, 0, 0, 0], [0, 0, 0, 0], [0, 0, 0, 0], [3, 0, 0, 0]] :
        List (List ℕ)).getD 1 [] ≠ replaceDigit 1 3 [1, 0, 0, 0] := by
  have hleg : legacySubdivision 0 = 4 := by
    norm_num [legacySubdivision, smSubdivisions, List.find?]
  refine ⟨?_, hleg, by decide, by decide⟩
  rw [legacyFormatMeasureLines, if_neg (by simp)]
  have hmax : ((([((0:ℚ), mkHold 0 [1, 0, 0, 0] 2)]).map
      Prod.fst).max?).getD (0 : ℚ) = 0 := by
    simp [List.max?]
  rw [hmax]
  simp only [hleg]
  simp only [List.foldl, legacyPlaceNote, mkHold]
  norm_num [replaceDigit, List.replicate]

/-- C7 (amended).  For a single hold at position-in-measure `f`
(`0 < f < 4`, nonzero event time so the dead `end_beat` expression does not
divide by zero), the modern encoder merges the end marker (`1 → 3` pattern)
at `min(startLine + subdivision / 4, subdivision - 1)`, while the legacy
encoder writes it at the fixed offset `min(startLine + 4, subdivision - 1)`
— in both cases independent of the hold's recorded end time `e`. -/
theorem hold_end_offset_policy (f t e : ℚ) (p : List ℕ) (h0 : 0 < f)
    (h4 : f < 4) (ht : t ≠ 0) (hp : p.length = 4) :
    (let s := sscRequiredSubdivision [(f, mkHold t p e)]
     let idx := min (Int.toNat (pyRound (f / 4 * (s : ℕ)))) (s - 1)
     let l1 := (List.replicate s [0, 0, 0, 0]).set idx (replaceDigit 1 2 p)
     sscFormatMeasureLines [(f, mkHold t p e)] =
       .ok (l1.set (min (idx + s / 4) (s - 1))
         (mergeLine (l1.getD (min (idx + s / 4) (s - 1)) [0, 0, 0, 0])
           (replaceDigit 1 3 p)))) ∧
    (let s := legacySubdivision f
     let idx := min (Int.toNat ⌊f / 4 * ((s : ℕ) : ℚ)⌋) (s - 1)
     legacyFormatMeasureLines [(f, mkHold t p e)] =
       ((List.replicate s [0, 0, 0, 0]).set idx (replaceDigit 1 2 p)).set
         (min (idx + 4) (s - 1)) (replaceDigit 1 3 p)) := by
  constructor
  · dsimp only
    have hs4 := sscRequiredSubdivision_ge_four [(f, mkHold t p e)]
    rw [sscFormatMeasureLines, if_neg (by simp)]
    simp only [List.foldlM, sscPlaceNote, mkHold_kind, mkHold_pattern,
      mkHold_hold_end_time, mkHold_time]
    rw [if_neg (by push_neg; exact ⟨ht, ne_of_gt h0⟩)]
    have hidx : min (Int.toNat (pyRound
        (f / 4 * ((sscRequiredSubdivision [(f, mkHold t p e)] : ℕ) : ℚ))))
        (sscRequiredSubdivision [(f, mkHold t p e)] - 1) <
        sscRequiredSubdivision [(f, mkHold t p e)] := by omega
    rw [getD_replicate_of_lt _ _ _ _ hidx,
      mergeLine_zeros _ (by rw [replaceDigit_length]; exact hp)]
    show Except.bind _ _ = _
    rw [Except.bind]
    rfl
  · dsimp only
    have hl4 := legacySubdivision_ge_four f
    rw [legacyFormatMeasureLines, if_neg (by simp)]
    have hmax : ((([(f, mkHold t p e)]).map Prod.fst).max?).getD (0 : ℚ) =
        f := by
      simp [List.max?]
    rw [hmax]
    simp only [List.foldl, legacyPlaceNote, mkHold_kind, mkHold_pattern]

/-- Witness for C7 (amended): a hold at position-in-measure `1`, time `1`,
recorded end time `5`. -/
theorem hold_end_offset_policy_witness :
    (0 : ℚ) < 1 ∧ (1 : ℚ) < 4 ∧ (1 : ℚ) ≠ 0 ∧
      ([1, 0, 0, 0] : List ℕ).length = 4 ∧
    ((let s := sscRequiredSubdivision [(1, mkHold 1 [1, 0, 0, 0] 5)]
      let idx := min (Int.toNat (pyRound ((1:ℚ) / 4 * (s : ℕ)))) (s - 1)
      let l1 := (List.replicate s [0, 0, 0, 0]).set idx
        (replaceDigit 1 2 [1, 0, 0, 0])
      sscFormatMeasureLines [(1, mkHold 1 [1, 0, 0, 0] 5)] =
        .ok (l1.set (min (idx + s / 4) (s - 1))
          (mergeLine (l1.getD (min (idx + s / 4) (s - 1)) [0, 0, 0, 0])
            (replaceDigit 1 3 [1, 0, 0, 0])))) ∧
     (let s := legacySubdivision 1
      let idx := min (Int.toNat ⌊(1:ℚ) / 4 * ((s : ℕ) : ℚ)⌋) (s - 1)
      legacyFormatMeasureLines [(1, mkHold 1 [1, 0, 0, 0] 5)] =
        ((List.replicate s [0, 0, 0, 0]).set idx
            (replaceDigit 1 2 [1, 0, 0, 0])).set
          (min (idx + 4) (s - 1)) (replaceDigit 1 3 [1, 0, 0, 0]))) :=
  ⟨by norm_num, by norm_num, by norm_num, by decide,
    hold_end_offset_policy 1 1 5 [1, 0, 0, 0] (by norm_num) (by norm_num)
      (by norm_num) (by decide)⟩

/-- Bind on a failed `Except` computation propagates the error. -/
theorem except_bind_error {ε α β : Type} (e : ε) (f : α → Except ε β) :
    (Except.error e : Except ε α) >>= f = Except.error e := rfl

/-- Map on a failed `Except` computation propagates the error. -/
theorem except_map_error {ε α β : Type} (e : ε) (f : α → β) :
    (Except.error e : Except ε α).map f = Except.error e := rfl

/-- C8.  The modern encoder rejects an empty chart list with the
`EmptyChartSet` condition, and a chart with an empty note list renders as a
single measure of four `0000` lines inside one note section, without
failing.  But "given at least one chart it does not raise" is violated by
the code: the unused `end_beat` expression in `SSCExporter._format_measure`
divides by `note['time']` and by `beat_in_measure`, so a chart containing a
hold at time `0` (or on a measure boundary) raises `ZeroDivisionError`. -/
theorem ssc_content_error_behavior :
    sscGenerateContent [] = .error .emptyChartSet ∧
    sscFormatNotes [] 120 = .ok "0000\n0000\n0000\n0000" ∧
    (∃ s, sscGenerateContent [emptyNotesChart] = .ok s) ∧
    sscGenerateContent [holdAtZeroChart] = .error .zeroDivision := by
  refine ⟨rfl, rfl, ⟨_, rfl⟩, ?_⟩
  have hmeasure : sscFormatMeasure [(0, mkHold 0 [1, 0, 0, 0] 2)] =
      .error .zeroDivision := by
    rw [sscFormatMeasure, sscFormatMeasureLines, if_neg (by simp)]
    simp only [List.foldlM, sscPlaceNote, mkHold_kind, mkHold_pattern,
      mkHold_hold_end_time, mkHold_time]
    simp only [true_or, if_true, except_bind_error, except_map_error]
  have hnotes : sscFormatNotes [mkHold 0 [1, 0, 0, 0] 2] 120 =
      .error .zeroDivision := by
    rw [sscFormatNotes, if_neg (by simp)]
    have hbps : beatPositions [mkHold 0 [1, 0, 0, 0] 2] 120 =
        [(0, mkHold 0 [1, 0, 0, 0] 2)] := by
      norm_num [beatPositions, mkHold_time]
    rw [if_neg (by rw [hbps]; simp)]
    rw [hbps]
    have hmax : (([((0:ℚ), mkHold 0 [1, 0, 0, 0] 2)].map Prod.fst).max?).getD
        (0 : ℚ) = 0 := by
      simp [List.max?]
    have htot : ((⌊(0:ℚ) / 4⌋ + 1)).toNat = 1 := by norm_num
    have hfm : ([((0:ℚ), mkHold 0 [1, 0, 0, 0] 2)].filterMap fun bp =>
        if ⌊bp.1 / 4⌋ = ((0:ℕ) : ℤ) then some (qmod4 bp.1, bp.2)
        else none) = [(0, mkHold 0 [1, 0, 0, 0] 2)] := by
      norm_num [List.filterMap, qmod4]
    have hr1 : List.range 1 = [0] := rfl
    simp only [hmax, htot, hr1, List.mapM_cons, List.mapM_nil,
      hfm, hmeasure, except_bind_error, except_map_error]
  have hsection : sscNotedataSection holdAtZeroChart =
      .error .zeroDivision := by
    rw [sscNotedataSection]
    have hn : holdAtZeroChart.notes = [mkHold 0 [1, 0, 0, 0] 2] := rfl
    have hb : holdAtZeroChart.timing.bpm = 120 := rfl
    rw [hn, hb, hnotes, except_map_error]
  rw [sscGenerateContent]
  rw [List.mapM_cons, List.mapM_nil, hsection, except_bind_error,
    except_map_error]

end AutoStepper
